import Mathlib

/-!
Grey-hole AODV experiment: trust layer records and experiment driver.

A shallow embedding of

* `contrib/shared_vars/model/shared_vars.h` (the shared records and the two
  strategy enumerations),
* `contrib/greyattackaodv/helper/greyattackaodv-helper.cc` (`AssignStreams`),
* `Test1.cc` (`RoutingExperiment`).

Conventions.  `uint32_t`, `uint16_t` and `uint8_t` fields are natural numbers and
every arithmetic operation on them reduces modulo the width.  `float` and
`double` values are idealised as rationals: rounding of arithmetic is not
modelled, the six significant digits of a `double` written to a stream are.  The
engines that operate on the shared records (trust update, classification,
confusion matrix, reconciliation, attack decision, defense stages) are not part
of the sources at hand; their definitions are marked as modelled from the
specification.
-/

namespace Ns3

/-! ## Definitions -/

/-- Width of the `uint32_t` counters. -/
def UINT32_MOD : Nat := 2 ^ 32

/-- Enumeration `AttackStratSelect` of `shared_vars.h`, in declaration order. -/
inductive AttackStratSelect where
  | NO_A_OPERATION
  | PACKET_DROP_PERC
  | PACKET_DROP_CONNECTION
  | PACKET_DROP_NEIGHBOURS
  | PACKET_DROP_IN_TIME
  | PACKET_DROP_SELECT
  deriving DecidableEq, Repr

/-- Numeric value of an `AttackStratSelect` enumerator (C++ numbering from 0). -/
def AttackStratSelect.toNat : AttackStratSelect → Nat
  | .NO_A_OPERATION => 0
  | .PACKET_DROP_PERC => 1
  | .PACKET_DROP_CONNECTION => 2
  | .PACKET_DROP_NEIGHBOURS => 3
  | .PACKET_DROP_IN_TIME => 4
  | .PACKET_DROP_SELECT => 5

/-- The enumerator with a given numeric value, if there is one. -/
def AttackStratSelect.fromValue : Nat → Option AttackStratSelect
  | 0 => some .NO_A_OPERATION
  | 1 => some .PACKET_DROP_PERC
  | 2 => some .PACKET_DROP_CONNECTION
  | 3 => some .PACKET_DROP_NEIGHBOURS
  | 4 => some .PACKET_DROP_IN_TIME
  | 5 => some .PACKET_DROP_SELECT
  | _ => none

/-- Enumeration `DefenseStratSelect` of `shared_vars.h`, in declaration order. -/
inductive DefenseStratSelect where
  | NO_D_OPERATION
  | MONITOR_ALWAYS
  | MONITOR_WHEN_VELOCITY
  | TRAINING
  | INFERENCE
  deriving DecidableEq, Repr

/-- Numeric value of a `DefenseStratSelect` enumerator (C++ numbering from 0). -/
def DefenseStratSelect.toNat : DefenseStratSelect → Nat
  | .NO_D_OPERATION => 0
  | .MONITOR_ALWAYS => 1
  | .MONITOR_WHEN_VELOCITY => 2
  | .TRAINING => 3
  | .INFERENCE => 4

/-- Record `DetectionResultsClass` of `shared_vars.h`: four `uint32_t` counters. -/
structure DetectionResultsClass where
  fp : Nat
  fn : Nat
  tp : Nat
  tn : Nat
  deriving DecidableEq, Repr

/-- Record `DetectedPacketClass` of `shared_vars.h`: parallel vectors. -/
structure DetectedPacketClass where
  ids : List Nat
  ttl : List Nat
  deriving DecidableEq, Repr

/-- Record `PacketsExpected` of `shared_vars.h`: parallel vectors. -/
structure PacketsExpected where
  ids : List Nat
  node : List Nat
  ttl : List Nat
  deriving DecidableEq, Repr

/-- Record `ForwardTableEntry` of `shared_vars.h`. -/
structure ForwardTableEntry where
  node : Nat
  forwardCount : Nat
  noForwardCount : Nat
  deriving DecidableEq, Repr

/-- Record `MassTableEntry` of `shared_vars.h`; the `float` masses are rationals. -/
structure MassTableEntry where
  node_recommended : Nat
  node_subject : Nat
  mTrust : ℚ
  mDistrust : ℚ
  mUncertain : ℚ
  deriving DecidableEq

/-- Record `TrustValueEntry` of `shared_vars.h`; the `float` evidence is rational. -/
structure TrustValueEntry where
  node : Nat
  alpha : ℚ
  beta : ℚ
  deriving DecidableEq

/-! ### TrustEngine -/

/-- Modelled from the spec: the mass triple of the TrustEngine, which is not in
the sources.  `mTrust = alpha/(alpha+beta+2)`, `mDistrust = beta/(alpha+beta+2)`,
`mUncertain = 2/(alpha+beta+2)`, stored for the pair (recommender, subject). -/
def massTriple (recommender subject : Nat) (alpha beta : ℚ) : MassTableEntry where
  node_recommended := recommender
  node_subject := subject
  mTrust := alpha / (alpha + beta + 2)
  mDistrust := beta / (alpha + beta + 2)
  mUncertain := 2 / (alpha + beta + 2)

/-- Modelled from the spec: `trustScore` of the TrustEngine, which is not in the
sources.  The node-level score is `alpha / (alpha + beta + 2)`, the `mTrust`
component of the triple. -/
def trustScore (e : TrustValueEntry) : ℚ :=
  (massTriple e.node e.node e.alpha e.beta).mTrust

/-- Mass invariant of one entry: the three masses add up to one and each lies
in the unit interval. -/
def MassTableEntry.Valid (m : MassTableEntry) : Prop :=
  m.mTrust + m.mDistrust + m.mUncertain = 1 ∧
    (0 ≤ m.mTrust ∧ m.mTrust ≤ 1) ∧
    (0 ≤ m.mDistrust ∧ m.mDistrust ≤ 1) ∧
    (0 ≤ m.mUncertain ∧ m.mUncertain ≤ 1)

instance (m : MassTableEntry) : Decidable m.Valid := by
  unfold MassTableEntry.Valid; infer_instance

/-- State of the TrustEngine: the evidence table and the mass table. -/
structure TrustEngine where
  trust : List TrustValueEntry
  mass : List MassTableEntry
  deriving DecidableEq

/-- Modelled from the spec: initialisation of the TrustEngine, which is not in
the sources.  Every tracked node starts without evidence, and every
(recommender, subject) pair starts with the triple of the empty evidence. -/
def TrustEngine.init (nodes : List Nat) (pairs : List (Nat × Nat)) : TrustEngine where
  trust := nodes.map fun n => { node := n, alpha := 0, beta := 0 }
  mass := pairs.map fun p => massTriple p.1 p.2 0 0

/-- Evidence increment of one entry: alpha on a forward, beta on a drop. -/
def TrustValueEntry.observe (forwarded : Bool) (e : TrustValueEntry) : TrustValueEntry :=
  if forwarded then { e with alpha := e.alpha + 1 } else { e with beta := e.beta + 1 }

/-- Modelled from the spec: `update(nodeId, forwarded)` of the TrustEngine, which
is not in the sources.  It increments alpha (forwarded) or beta (not forwarded)
in the evidence entry of the node, then recomputes the triple of every
(observer, nodeId) pair from the new evidence.  A node without an evidence entry
is left alone. -/
def TrustEngine.update (nodeId : Nat) (forwarded : Bool) (s : TrustEngine) : TrustEngine :=
  let trust1 := s.trust.map fun e => if e.node = nodeId then e.observe forwarded else e
  match trust1.find? fun e => decide (e.node = nodeId) with
  | none => { trust := trust1, mass := s.mass }
  | some e =>
    { trust := trust1
      mass := s.mass.map fun m =>
        if m.node_subject = nodeId then
          massTriple m.node_recommended m.node_subject e.alpha e.beta
        else m }

/-- A run of updates, applied in arrival order. -/
def TrustEngine.updates (evs : List (Nat × Bool)) (s : TrustEngine) : TrustEngine :=
  evs.foldl (fun st ev => st.update ev.1 ev.2) s

/-- Evidence stays non-negative and every mass entry is valid. -/
def TrustEngine.Inv (s : TrustEngine) : Prop :=
  (∀ e ∈ s.trust, 0 ≤ e.alpha ∧ 0 ≤ e.beta) ∧ ∀ m ∈ s.mass, m.Valid

/-! ### DetectionEvaluator -/

/-- Outcome of a classification. -/
inductive Label where
  | benign
  | malicious
  deriving DecidableEq, Repr

/-- Modelled from the spec: `classify(nodeId, trustScore, threshold)` of the
DetectionEvaluator, which is not in the sources.  A node is malicious if its
trust score is below the threshold. -/
def classify (_nodeId : Nat) (score threshold : ℚ) : Label :=
  if score < threshold then .malicious else .benign

/-- A `DetectionResultsClass` with all four counters at zero (a fresh run). -/
def DetectionResultsClass.fresh : DetectionResultsClass :=
  { fp := 0, fn := 0, tp := 0, tn := 0 }

/-- Sum of the four confusion-matrix counters. -/
def DetectionResultsClass.total (c : DetectionResultsClass) : Nat :=
  c.tp + c.tn + c.fp + c.fn

/-- Modelled from the spec: `record(nodeId, predicted, groundTruth)` of the
DetectionEvaluator, which is not in the sources.  With ground truth the matching
counter is incremented (predicted malicious and actual malicious: tp; predicted
malicious and actual benign: fp; predicted benign and actual malicious: fn;
predicted benign and actual benign: tn); without ground truth nothing is
recorded.  The counters are the `uint32_t` fields of `DetectionResultsClass`, so
an increment wraps at `2 ^ 32`. -/
def record (_nodeId : Nat) (predicted : Label) (groundTruth : Option Label)
    (c : DetectionResultsClass) : DetectionResultsClass :=
  match groundTruth with
  | none => c
  | some actual =>
    match predicted, actual with
    | .malicious, .malicious => { c with tp := (c.tp + 1) % UINT32_MOD }
    | .malicious, .benign => { c with fp := (c.fp + 1) % UINT32_MOD }
    | .benign, .malicious => { c with fn := (c.fn + 1) % UINT32_MOD }
    | .benign, .benign => { c with tn := (c.tn + 1) % UINT32_MOD }

/-- A sequence of `record` calls, in order. -/
def recordAll (calls : List (Nat × Label × Option Label))
    (c : DetectionResultsClass) : DetectionResultsClass :=
  calls.foldl (fun st call => record call.1 call.2.1 call.2.2 st) c

/-- Number of calls of a sequence that come with ground truth. -/
def withGroundTruth (calls : List (Nat × Label × Option Label)) : Nat :=
  (calls.filter fun call => call.2.2.isSome).length


/-! ### PacketExpectationTracker -/

/-- State of the PacketExpectationTracker: the expected and detected packet
sets of `shared_vars.h` and the forward table, one `ForwardTableEntry` per node
identifier. -/
structure PacketExpectationTracker where
  expected : PacketsExpected
  detected : DetectedPacketClass
  table : Nat → ForwardTableEntry

/-- Tracker of a fresh run: no expectation, no observation, all counts zero. -/
def PacketExpectationTracker.fresh : PacketExpectationTracker where
  expected := { ids := [], node := [], ttl := [] }
  detected := { ids := [], ttl := [] }
  table := fun n => { node := n, forwardCount := 0, noForwardCount := 0 }

/-- Triggers seen by the controller in one decision cycle: the topology has
become active, monitoring is velocity-gated, enough labelled observations have
accumulated, a stable decision policy has been learned. -/
structure StageTriggers where
  topologyActive : Bool
  velocityGated : Bool
  enoughLabels : Bool
  policyStable : Bool
  deriving DecidableEq, Repr

/-- Modelled from the spec: the stage transition of the AdaptiveDefenseController,
which is not in the sources.  NO_OPERATION goes to MONITOR_ALWAYS or
MONITOR_WHEN_VELOCITY when the topology becomes active, a monitoring stage goes
to TRAINING when enough labelled observations have accumulated, TRAINING goes to
INFERENCE once a stable policy is learned; without its trigger a stage stays. -/
def nextStage (t : StageTriggers) : DefenseStratSelect → DefenseStratSelect
  | .NO_D_OPERATION =>
    if t.topologyActive then
      if t.velocityGated then .MONITOR_WHEN_VELOCITY else .MONITOR_ALWAYS
    else .NO_D_OPERATION
  | .MONITOR_ALWAYS => if t.enoughLabels then .TRAINING else .MONITOR_ALWAYS
  | .MONITOR_WHEN_VELOCITY => if t.enoughLabels then .TRAINING else .MONITOR_WHEN_VELOCITY
  | .TRAINING => if t.policyStable then .INFERENCE else .TRAINING
  | .INFERENCE => .INFERENCE

/-- Stages visited by a run of decision cycles, the start stage first. -/
def stageTrace (s : DefenseStratSelect) : List StageTriggers → List DefenseStratSelect
  | [] => [s]
  | t :: ts => s :: stageTrace (nextStage t s) ts

/-- Position of a stage in the order NO_OPERATION, then MONITOR_ALWAYS or
MONITOR_WHEN_VELOCITY, then TRAINING, then INFERENCE. -/
def stageRank : DefenseStratSelect → Nat
  | .NO_D_OPERATION => 0
  | .MONITOR_ALWAYS => 1
  | .MONITOR_WHEN_VELOCITY => 1
  | .TRAINING => 2
  | .INFERENCE => 3

/-! ### AttackStrategyEngine -/

/-- Outcome of the forwarding decision. -/
inductive Decision where
  | forward
  | drop
  deriving DecidableEq, Repr

/-- Packet fields the attack strategies look at. -/
structure PacketContext where
  id : Nat
  source : Nat
  destination : Nat
  ttl : Nat
  deriving DecidableEq, Repr

/-- Configuration of the AttackStrategyEngine: the drop probability, the flow
to drop, the neighbours to drop for, the time windows to drop in and the
selector over packet fields. -/
structure AttackConfig where
  percentDrop : ℚ
  flowSource : Nat
  flowDestination : Nat
  neighbours : List Nat
  windows : List (ℚ × ℚ)
  selector : PacketContext → Bool

/-- Modelled from the spec: `decide(packet, holdingNode, configuredStrategy)` of
the AttackStrategyEngine, which is not in the sources.  `now` is the simulated
time and `draw` the value of the random source for this packet, uniform in
[0, 1).  NO_OPERATION always forwards; PACKET_DROP_PERC drops when the draw is
below the drop probability; PACKET_DROP_CONNECTION drops the configured flow;
PACKET_DROP_NEIGHBOURS drops packets from or to a configured neighbour;
PACKET_DROP_IN_TIME drops inside a configured window; PACKET_DROP_SELECT drops
what the selector picks. -/
def AttackStrategyEngine.decide (cfg : AttackConfig) (now draw : ℚ) (packet : PacketContext)
    (_holdingNode : Nat) : AttackStratSelect → Decision
  | .NO_A_OPERATION => .forward
  | .PACKET_DROP_PERC => if draw < cfg.percentDrop then .drop else .forward
  | .PACKET_DROP_CONNECTION =>
    if packet.source = cfg.flowSource ∧ packet.destination = cfg.flowDestination then .drop
    else .forward
  | .PACKET_DROP_NEIGHBOURS =>
    if packet.source ∈ cfg.neighbours ∨ packet.destination ∈ cfg.neighbours then .drop
    else .forward
  | .PACKET_DROP_IN_TIME =>
    if cfg.windows.any (fun w => Decidable.decide (w.1 ≤ now ∧ now < w.2)) then .drop else .forward
  | .PACKET_DROP_SELECT => if cfg.selector packet then .drop else .forward

/-- Attributes `Install_RoutingProtocol` of `Test1.cc` sets on the
greyattackaodv helper before installing it: `PercentDrop` and `mStrat`. -/
structure GreyAttackAttributes where
  PercentDrop : ℚ
  mStrat : Nat
  deriving DecidableEq

/-- The attribute values of `RoutingExperiment::Install_RoutingProtocol`:
`Set("PercentDrop", DoubleValue(1.0))` and `Set("mStrat", UintegerValue(1))`. -/
def Install_RoutingProtocol_attributes : GreyAttackAttributes :=
  { PercentDrop := 1, mStrat := 1 }


/-! ### RoutingExperiment (`Test1.cc`) -/

/-- Result of a step that may end the program with `NS_FATAL_ERROR`. -/
inductive Outcome (α : Type) where
  | ok (value : α)
  | fatal (msg : String)
  deriving DecidableEq, Repr

/-- Data members of `class RoutingExperiment` with their default member
initialisers.  `port`, `bytesTotal` and `packetsReceived` are `uint32_t`,
`m_nSinks` is `int`, `m_txp` is `double`. -/
structure RoutingExperiment where
  port : Nat := 9
  bytesTotal : Nat := 0
  packetsReceived : Nat := 0
  m_CSVfileName : String := "manet-routing.output.csv"
  m_nSinks : Int := 5
  m_protocolName : String := "AODV"
  m_txp : ℚ := 10
  m_traceMobility : Bool := true
  m_flowMonitor : Bool := true
  deriving DecidableEq

/-- Values the command line gives for the four options `CommandSetup`
registers with `cmd.AddValue`; an option that is absent keeps the member as it
is. -/
structure CommandLineValues where
  CSVfileName : Option String := none
  traceMobility : Option Bool := none
  protocol : Option String := none
  flowMonitor : Option Bool := none
  deriving DecidableEq

/-- The list `allowedProtocols` of `CommandSetup`. -/
def allowedProtocols : List String := ["AODV"]

/-- Function `RoutingExperiment::CommandSetup`: the parsed values are stored in
the members, then a protocol name that `std::find` does not find among the
allowed ones is a fatal error. -/
def CommandSetup (argv : CommandLineValues) (e : RoutingExperiment) :
    Outcome RoutingExperiment :=
  let e1 : RoutingExperiment :=
    { e with
      m_CSVfileName := argv.CSVfileName.getD e.m_CSVfileName
      m_traceMobility := argv.traceMobility.getD e.m_traceMobility
      m_protocolName := argv.protocol.getD e.m_protocolName
      m_flowMonitor := argv.flowMonitor.getD e.m_flowMonitor }
  if allowedProtocols.find? (fun p => p == e1.m_protocolName) = none then
    .fatal ("No such protocol:" ++ e1.m_protocolName)
  else .ok e1

/-- One field of a CSV row, before `operator<<` formats it. -/
inductive CsvField where
  | real (q : ℚ)
  | uint (n : Nat)
  | int (i : Int)
  | text (s : String)
  deriving DecidableEq

/-- The column headers `Run` writes, in order. -/
def csvHeader : List String :=
  ["SimulationSecond", "ReceiveRate", "PacketsReceived", "NumberOfSinks", "RoutingProtocol",
    "TransmissionPower"]

/-- Steps of `RoutingExperiment::Run` in program order. -/
inductive RunStep where
  | writeHeader (file : String) (columns : List String)
  | createNodes (nWifis : Int)
  | installWifiAndMobility
  | installRoutingProtocol (attributes : GreyAttackAttributes)
  | assignAddresses
  | sinkAndSource (sink source : Int) (startFrom startTo stop : ℚ)
  | checkThroughput
  | simulate (stop : ℚ)
  deriving DecidableEq

/-- The sink and source pairs of the loop `for (int i = 0; i < m_nSinks; i++)`
of `Run`: sink node `i`, source node `i + m_nSinks`, started at a uniform time
between 100 and 101 seconds and stopped at `TotalTime`. -/
def sinkLoop (m_nSinks : Int) (TotalTime : ℚ) : List RunStep :=
  (List.range m_nSinks.toNat).map fun i =>
    RunStep.sinkAndSource i (i + m_nSinks) 100 101 TotalTime

/-- Function `RoutingExperiment::Run` as the list of steps it performs and the
fatal error that ends it, if any.  `nWifis` is 20 and `TotalTime` is 200. -/
def Run (e : RoutingExperiment) : List RunStep × Option String :=
  let nWifis : Int := 20
  let TotalTime : ℚ := 200
  let setup : List RunStep :=
    [.writeHeader e.m_CSVfileName csvHeader, .createNodes nWifis, .installWifiAndMobility]
  if e.m_protocolName = "AODV" then
    (setup ++ [.installRoutingProtocol Install_RoutingProtocol_attributes, .assignAddresses]
      ++ sinkLoop e.m_nSinks TotalTime ++ [.checkThroughput, .simulate TotalTime], none)
  else
    (setup, some ("No such protocol:" ++ e.m_protocolName))

/-- Function `main`: `CommandSetup` on a default experiment, then `Run`. -/
def main (argv : CommandLineValues) : List RunStep × Option String :=
  match CommandSetup argv {} with
  | .fatal msg => ([], some msg)
  | .ok e => Run e

/-- A step is the routing-protocol installation. -/
def RunStep.isInstall : RunStep → Bool
  | .installRoutingProtocol _ => true
  | _ => false

/-- The experiment together with the CSV files it writes, by file name, and
for each file name whether opening it for writing succeeds. -/
structure World where
  exp : RoutingExperiment
  files : String → List (List CsvField)
  writable : String → Bool

/-- Rounding to the nearest integer, a tie going to the even neighbour. -/
def roundHalfEven (x : ℚ) : ℤ :=
  if x - ⌊x⌋ < 1 / 2 then ⌊x⌋
  else if 1 / 2 < x - ⌊x⌋ then ⌊x⌋ + 1
  else if ⌊x⌋ % 2 = 0 then ⌊x⌋
  else ⌊x⌋ + 1

/-- The number `operator<<` writes for a `double` on a stream left at its
defaults, as `CheckThroughput` leaves `out`: precision 6 in the general format,
that is the decimal number of six significant digits nearest to the value, a
tie going to the even digit.  `Int.log 10 |x|` is the decimal exponent of the
leading digit.  For the rate `(bytesTotal * 8.0) / 1000` the product is exact
in a `double` and the quotient is rounded to 53 bits; the exact quotient is a
multiple of 1/1000 below `2 ^ 35`, so it either lies on a six-digit tie, and is
then an integer the `double` holds exactly, or lies at a relative distance of
more than `10 ^ (-11)` from every tie, far beyond the rounding of the division:
the six digits written for the `double` are those of the exact quotient. -/
def sixDigits (x : ℚ) : ℚ :=
  if x = 0 then 0
  else
    (if x < 0 then -1 else 1) * (roundHalfEven (|x| * 10 ^ (5 - Int.log 10 |x|)) : ℚ)
      / 10 ^ (5 - Int.log 10 |x|)

/-- The row `CheckThroughput` writes at simulated time `now`: the time, `kbs =
(bytesTotal * 8.0) / 1000`, `packetsReceived`, `m_nSinks`, `m_protocolName` and
`m_txp`.  The three `double` fields are written through `operator<<`, with six
significant digits. -/
def csvRow (now : ℚ) (e : RoutingExperiment) : List CsvField :=
  [.real (sixDigits now), .real (sixDigits ((e.bytesTotal * 8 : ℚ) / 1000)),
    .uint e.packetsReceived, .int e.m_nSinks, .text e.m_protocolName,
    .real (sixDigits e.m_txp)]

/-- Function `RoutingExperiment::CheckThroughput` at simulated time `now`: it
computes the rate, resets `bytesTotal`, opens the CSV file for appending and
writes the row, which reaches the file when the open succeeded, resets
`packetsReceived` and schedules itself one second later.  The result is the new
world and the time of the next call. -/
def CheckThroughput (now : ℚ) (w : World) : World × ℚ :=
  let row := csvRow now w.exp
  ({ exp := { w.exp with bytesTotal := 0, packetsReceived := 0 }
     files :=
       if w.writable w.exp.m_CSVfileName then
         Function.update w.files w.exp.m_CSVfileName (w.files w.exp.m_CSVfileName ++ [row])
       else w.files
     writable := w.writable },
   now + 1)

/-- Function `RoutingExperiment::ReceivePacket` on the sizes of the packets
pending on the socket: each packet adds its size to `bytesTotal` and one to
`packetsReceived`, both `uint32_t`; the loop ends when `RecvFrom` has no more
packet. -/
def ReceivePacket (sizes : List Nat) (e : RoutingExperiment) : RoutingExperiment :=
  sizes.foldl
    (fun st size =>
      { st with
        bytesTotal := (st.bytesTotal + size) % UINT32_MOD
        packetsReceived := (st.packetsReceived + 1) % UINT32_MOD })
    e

/-- Routing protocol objects as `AssignStreams` tells them apart with
`DynamicCast`: a `greyattackaodv::RoutingProtocol`, an `Ipv4ListRouting` with the
protocols it holds, or any other protocol.  `RoutingProtocol::AssignStreams` is
not in the sources: `streams start` is the number of streams the instance
reports when it is given the start index `start`. -/
inductive Ipv4RoutingProtocol where
  | greyattackaodv (streams : Int → Int)
  | listRouting (protocols : List Ipv4RoutingProtocol)
  | other

/-- The `Ipv4` object of a node with its routing protocol, if one is set. -/
structure Ipv4 where
  routingProtocol : Option Ipv4RoutingProtocol

/-- A node with its aggregated `Ipv4` object, if there is one. -/
structure Node where
  ipv4 : Option Ipv4

/-- How a call of `AssignStreams` ends: it returns the number of streams, an
`NS_ASSERT_MSG` fails and terminates the program, a null `Ptr` is dereferenced,
or an `int64_t` computation overflows. -/
inductive StreamsOutcome where
  | returned (count : Int)
  | assertFailed (msg : String)
  | nullDereference
  | signedOverflow
  deriving DecidableEq, Repr

/-- Range of `int64_t`. -/
def inInt64 (x : Int) : Prop := -(2 ^ 63) ≤ x ∧ x < 2 ^ 63

instance (x : Int) : Decidable (inInt64 x) := by
  unfold inInt64; infer_instance

/-- The greyattackaodv instance of a list: the first protocol of the list that
casts to `greyattackaodv::RoutingProtocol` (the inner loop ends with `break`). -/
def firstGreyattackaodv : List Ipv4RoutingProtocol → Option (Int → Int)
  | [] => none
  | .greyattackaodv streams :: _ => some streams
  | _ :: rest => firstGreyattackaodv rest

/-- The greyattackaodv instance `AssignStreams` finds for a routing protocol:
the protocol itself, or else the first one in its list routing, or else none. -/
def greyattackaodvOf : Ipv4RoutingProtocol → Option (Int → Int)
  | .greyattackaodv streams => some streams
  | .listRouting protocols => firstGreyattackaodv protocols
  | .other => none

/-- The loop of `greyattackaodvHelper::AssignStreams` over the nodes of the
container, from the value `currentStream`.  `NS_ASSERT_MSG` is not in the
sources: with `assertsEnabled` a failed assertion ends the program with its
message, without it the check expands to nothing.  The result is the list of
start indices handed out so far, in order, and either the final
`currentStream` or the way the loop ended. -/
def assignStreamsLoop (assertsEnabled : Bool) :
    List Node → Int → List Int → List Int × (Int ⊕ StreamsOutcome)
  | [], currentStream, given => (given, .inl currentStream)
  | node :: rest, currentStream, given =>
    match node.ipv4 with
    | none =>
      if assertsEnabled then (given, .inr (.assertFailed "Ipv4 not installed on node"))
      else (given, .inr .nullDereference)
    | some ipv4 =>
      match ipv4.routingProtocol with
      | none =>
        if assertsEnabled then
          (given, .inr (.assertFailed "Ipv4 routing not installed on node"))
        else assignStreamsLoop assertsEnabled rest currentStream given
      | some proto =>
        match greyattackaodvOf proto with
        | none => assignStreamsLoop assertsEnabled rest currentStream given
        | some streams =>
          if inInt64 (currentStream + streams currentStream) then
            assignStreamsLoop assertsEnabled rest (currentStream + streams currentStream)
              (given ++ [currentStream])
          else (given ++ [currentStream], .inr .signedOverflow)

/-- Function `greyattackaodvHelper::AssignStreams(c, stream)`: the start indices
handed to the protocol instances, in order, and the outcome, which on return is
`currentStream - stream`. -/
def AssignStreams (assertsEnabled : Bool) (c : List Node) (stream : Int) :
    List Int × StreamsOutcome :=
  match assignStreamsLoop assertsEnabled c stream [] with
  | (given, .inl currentStream) =>
    if inInt64 (currentStream - stream) then (given, .returned (currentStream - stream))
    else (given, .signedOverflow)
  | (given, .inr outcome) => (given, outcome)


/-- The loop `while ((packet = socket->RecvFrom(senderAddress)))` of
`RoutingExperiment::ReceivePacket` on the queue of packets pending on the
socket, each given by its size: `RecvFrom` takes the packet at the head of the
queue, and the loop ends when it returns no packet.  The result is the
experiment and the queue left on the socket when the loop ends. -/
def ReceivePacketLoop : List Nat → RoutingExperiment → RoutingExperiment × List Nat
  | [], e => (e, [])
  | size :: pending, e =>
    ReceivePacketLoop pending
      { e with
        bytesTotal := (e.bytesTotal + size) % UINT32_MOD
        packetsReceived := (e.packetsReceived + 1) % UINT32_MOD }


/-- The greyattackaodv instance a node contributes to `AssignStreams`: the
instance found for its routing protocol, if the node has one. -/
def contributor (node : Node) : Option (Int → Int) :=
  match node.ipv4 with
  | none => none
  | some ipv4 =>
    match ipv4.routingProtocol with
    | none => none
    | some proto => greyattackaodvOf proto

/-- The two assertions of `AssignStreams` hold for the node: it has an `Ipv4`
object and the object has a routing protocol. -/
def Node.installed (node : Node) : Bool :=
  match node.ipv4 with
  | none => false
  | some ipv4 => ipv4.routingProtocol.isSome

/-- A protocol object casts to `greyattackaodv::RoutingProtocol`. -/
def Ipv4RoutingProtocol.isGreyattackaodv : Ipv4RoutingProtocol → Bool
  | .greyattackaodv _ => true
  | _ => false

/-- Start indices handed to a sequence of instances from the index `stream`:
each instance starts where the one before it ended. -/
def streamStarts : Int → List (Int → Int) → List Int
  | _, [] => []
  | stream, streams :: rest => stream :: streamStarts (stream + streams stream) rest

/-- Counts the instances of a sequence return when the first one is given the
start index `stream`. -/
def streamCounts : Int → List (Int → Int) → List Int
  | _, [] => []
  | stream, streams :: rest => streams stream :: streamCounts (stream + streams stream) rest

/-- Every value `currentStream` takes while the instances of a sequence are
served from `stream` is an `int64_t`. -/
def streamsInRange : Int → List (Int → Int) → Prop
  | _, [] => True
  | stream, streams :: rest =>
    inInt64 (stream + streams stream) ∧ streamsInRange (stream + streams stream) rest


/-- A container of four nodes: a greyattackaodv node reporting 1 stream, a node
with a list routing that holds another protocol and two greyattackaodv
instances reporting 2 and 5 streams, a node with another protocol, and a
greyattackaodv node reporting 3 streams. -/
def sampleContainer : List Node :=
  [{ ipv4 := some { routingProtocol := some (.greyattackaodv fun _ => 1) } },
    { ipv4 := some
        { routingProtocol :=
            some (.listRouting
              [.other, .greyattackaodv (fun _ => 2), .greyattackaodv (fun _ => 5)]) } },
    { ipv4 := some { routingProtocol := some .other } },
    { ipv4 := some { routingProtocol := some (.greyattackaodv fun _ => 3) } }]


theorem massTriple_valid (r s : Nat) (alpha beta : ℚ) (ha : 0 ≤ alpha) (hb : 0 ≤ beta) :
    (massTriple r s alpha beta).Valid := by
  have hpos : (0 : ℚ) < alpha + beta + 2 := by linarith
  have hne : alpha + beta + 2 ≠ 0 := ne_of_gt hpos
  simp only [MassTableEntry.Valid, massTriple]
  refine ⟨?_, ⟨?_, ?_⟩, ⟨?_, ?_⟩, ⟨?_, ?_⟩⟩
  · field_simp
  · exact div_nonneg ha hpos.le
  · rw [div_le_one hpos]; linarith
  · exact div_nonneg hb hpos.le
  · rw [div_le_one hpos]; linarith
  · exact div_nonneg (by norm_num) hpos.le
  · rw [div_le_one hpos]; linarith

theorem TrustValueEntry.observe_nonneg (f : Bool) (e : TrustValueEntry)
    (h : 0 ≤ e.alpha ∧ 0 ≤ e.beta) : 0 ≤ (e.observe f).alpha ∧ 0 ≤ (e.observe f).beta := by
  obtain ⟨ha, hb⟩ := h
  cases f
  · simp only [TrustValueEntry.observe, Bool.false_eq_true, if_false]
    exact ⟨ha, by linarith⟩
  · simp only [TrustValueEntry.observe, if_true]
    exact ⟨by linarith, hb⟩

theorem TrustEngine.init_inv (nodes : List Nat) (pairs : List (Nat × Nat)) :
    (TrustEngine.init nodes pairs).Inv := by
  constructor
  · intro e he
    simp only [TrustEngine.init, List.mem_map] at he
    obtain ⟨n, _, rfl⟩ := he
    exact ⟨le_refl _, le_refl _⟩
  · intro m hm
    simp only [TrustEngine.init, List.mem_map] at hm
    obtain ⟨p, _, rfl⟩ := hm
    exact massTriple_valid _ _ 0 0 (le_refl _) (le_refl _)

theorem TrustEngine.update_inv (nodeId : Nat) (f : Bool) (s : TrustEngine) (h : s.Inv) :
    (s.update nodeId f).Inv := by
  obtain ⟨ht, hm⟩ := h
  have htrust : ∀ e ∈ s.trust.map (fun e => if e.node = nodeId then e.observe f else e),
      0 ≤ e.alpha ∧ 0 ≤ e.beta := by
    intro e he
    simp only [List.mem_map] at he
    obtain ⟨e0, he0, rfl⟩ := he
    by_cases hn : e0.node = nodeId
    · simp only [hn, if_true]
      exact TrustValueEntry.observe_nonneg f e0 (ht e0 he0)
    · simp only [hn, if_false]
      exact ht e0 he0
  unfold TrustEngine.update
  simp only
  split
  · exact ⟨htrust, hm⟩
  · rename_i e hfind
    have hmem := List.mem_of_find?_eq_some hfind
    have hnn := htrust e hmem
    refine ⟨htrust, ?_⟩
    intro m hmm
    simp only [List.mem_map] at hmm
    obtain ⟨m0, hm0, rfl⟩ := hmm
    by_cases hn : m0.node_subject = nodeId
    · simp only [hn, if_true]
      exact massTriple_valid _ _ _ _ hnn.1 hnn.2
    · simp only [hn, if_false]
      exact hm m0 hm0

theorem TrustEngine.updates_inv (evs : List (Nat × Bool)) (s : TrustEngine) (h : s.Inv) :
    (s.updates evs).Inv := by
  induction evs generalizing s with
  | nil => exact h
  | cons ev evs ih =>
    simp only [TrustEngine.updates, List.foldl_cons]
    exact ih _ (TrustEngine.update_inv ev.1 ev.2 s h)

/-- Claim C1: for non-negative evidence (alpha, beta) the mass triple
alpha/(alpha+beta+2), beta/(alpha+beta+2), 2/(alpha+beta+2) adds up to one with
each component in the unit interval, and every mass table entry has this
property after initialisation and after every run of updates. -/
theorem C1_mass_triple_invariant (alpha beta : ℚ) (ha : 0 ≤ alpha) (hb : 0 ≤ beta) :
    (∀ r s : Nat,
        (massTriple r s alpha beta).mTrust = alpha / (alpha + beta + 2) ∧
        (massTriple r s alpha beta).mDistrust = beta / (alpha + beta + 2) ∧
        (massTriple r s alpha beta).mUncertain = 2 / (alpha + beta + 2) ∧
        (massTriple r s alpha beta).Valid) ∧
    (∀ (nodes : List Nat) (pairs : List (Nat × Nat)),
        ∀ m ∈ (TrustEngine.init nodes pairs).mass, m.Valid) ∧
    (∀ (nodes : List Nat) (pairs : List (Nat × Nat)) (evs : List (Nat × Bool)),
        ∀ m ∈ ((TrustEngine.init nodes pairs).updates evs).mass, m.Valid) := by
  refine ⟨fun r s => ⟨rfl, rfl, rfl, massTriple_valid r s alpha beta ha hb⟩, ?_, ?_⟩
  · intro nodes pairs
    exact (TrustEngine.init_inv nodes pairs).2
  · intro nodes pairs evs
    exact (TrustEngine.updates_inv evs _ (TrustEngine.init_inv nodes pairs)).2

/-- Witness of C1 at the evidence pair (1, 9). -/
theorem C1_mass_triple_invariant_witness :
    ((0 : ℚ) ≤ 1 ∧ (0 : ℚ) ≤ 9) ∧
    (massTriple 0 7 1 9).Valid ∧
    (∀ m ∈ ((TrustEngine.init [7] [(0, 7)]).updates [(7, true), (7, false)]).mass,
        m.Valid) :=
  ⟨⟨by norm_num, by norm_num⟩,
   ((C1_mass_triple_invariant 1 9 (by norm_num) (by norm_num)).1 0 7).2.2.2,
   (C1_mass_triple_invariant 1 9 (by norm_num) (by norm_num)).2.2 [7] [(0, 7)]
     [(7, true), (7, false)]⟩

/-- Claim C3: classify returns malicious exactly when the trust score is below
the threshold and benign otherwise; a node with alpha = 1 and beta = 9 has trust
score 1/12 and is malicious at threshold 0.3. -/
theorem C3_classify_threshold :
    (∀ (nodeId : Nat) (score threshold : ℚ),
        (classify nodeId score threshold = Label.malicious ↔ score < threshold) ∧
        (classify nodeId score threshold = Label.benign ↔ ¬ score < threshold)) ∧
    (∀ nodeId : Nat,
        trustScore { node := nodeId, alpha := 1, beta := 9 } = 1 / 12 ∧
        classify nodeId (trustScore { node := nodeId, alpha := 1, beta := 9 }) (3 / 10)
          = Label.malicious) := by
  constructor
  · intro nodeId score threshold
    unfold classify
    by_cases h : score < threshold <;> simp [h]
  · intro nodeId
    have hs : trustScore { node := nodeId, alpha := 1, beta := 9 } = 1 / 12 := by
      norm_num [trustScore, massTriple]
    refine ⟨hs, ?_⟩
    rw [hs]
    unfold classify
    norm_num


theorem record_total_le (n : Nat) (p : Label) (g : Option Label) (c : DetectionResultsClass) :
    (record n p g c).total ≤ c.total + 1 := by
  unfold record DetectionResultsClass.total UINT32_MOD
  cases g with
  | none => simp
  | some a =>
    cases p <;> cases a <;> simp only <;> omega

theorem record_total_of_lt (n : Nat) (p a : Label) (c : DetectionResultsClass)
    (h : c.total + 1 < UINT32_MOD) : (record n p (some a) c).total = c.total + 1 := by
  unfold record DetectionResultsClass.total UINT32_MOD at *
  cases p <;> cases a <;> simp only <;> omega

theorem recordAll_total (calls : List (Nat × Label × Option Label))
    (c : DetectionResultsClass) (h : c.total + withGroundTruth calls < UINT32_MOD) :
    (recordAll calls c).total = c.total + withGroundTruth calls := by
  induction calls generalizing c with
  | nil => simp [recordAll, withGroundTruth]
  | cons call calls ih =>
    obtain ⟨n, p, g⟩ := call
    have hfold : recordAll ((n, p, g) :: calls) c = recordAll calls (record n p g c) := rfl
    rw [hfold]
    cases g with
    | none =>
      have hw : withGroundTruth ((n, p, none) :: calls) = withGroundTruth calls := by
        simp [withGroundTruth]
      rw [hw] at h ⊢
      exact ih _ h
    | some a =>
      have hw : withGroundTruth ((n, p, some a) :: calls) = withGroundTruth calls + 1 := by
        simp [withGroundTruth]
      rw [hw] at h ⊢
      have h1 : (record n p (some a) c).total = c.total + 1 :=
        record_total_of_lt n p a c (by omega)
      rw [ih _ (by rw [h1]; omega), h1]
      omega

theorem withGroundTruth_replicate (k : Nat) (n : Nat) (p a : Label) :
    withGroundTruth (List.replicate k (n, p, some a)) = k := by
  induction k with
  | zero => rfl
  | succ k ih =>
    have hstep : withGroundTruth (List.replicate (k + 1) (n, p, some a))
        = withGroundTruth (List.replicate k (n, p, some a)) + 1 := by
      simp [withGroundTruth, List.replicate_succ]
    rw [hstep, ih]

theorem recordAll_replicate_tp (k : Nat) (c : DetectionResultsClass) :
    (recordAll (List.replicate k (0, Label.malicious, some Label.malicious)) c).tp =
        (if k = 0 then c.tp else (c.tp + k) % UINT32_MOD) ∧
    (recordAll (List.replicate k (0, Label.malicious, some Label.malicious)) c).tn = c.tn ∧
    (recordAll (List.replicate k (0, Label.malicious, some Label.malicious)) c).fp = c.fp ∧
    (recordAll (List.replicate k (0, Label.malicious, some Label.malicious)) c).fn = c.fn := by
  induction k generalizing c with
  | zero => exact ⟨rfl, rfl, rfl, rfl⟩
  | succ k ih =>
    have hfold : recordAll
        (List.replicate (k + 1) (0, Label.malicious, some Label.malicious)) c =
        recordAll (List.replicate k (0, Label.malicious, some Label.malicious))
          (record 0 Label.malicious (some Label.malicious) c) := rfl
    rw [hfold]
    obtain ⟨h1, h2, h3, h4⟩ := ih (record 0 Label.malicious (some Label.malicious) c)
    refine ⟨?_, h2, h3, h4⟩
    rw [h1]
    by_cases hk : k = 0
    · subst hk
      simp [record]
    · simp only [hk, if_false, Nat.succ_ne_zero, record]
      rw [Nat.add_mod, Nat.mod_mod, ← Nat.add_mod]
      congr 1
      omega

theorem recordAll_replicate_tp_total (k : Nat) (hk : 0 < k) :
    (recordAll (List.replicate k (0, Label.malicious, some Label.malicious))
        DetectionResultsClass.fresh).total = k % UINT32_MOD := by
  obtain ⟨h1, h2, h3, h4⟩ := recordAll_replicate_tp k DetectionResultsClass.fresh
  unfold DetectionResultsClass.total
  rw [h1, h2, h3, h4]
  have hk0 : k ≠ 0 := by omega
  simp [hk0, DetectionResultsClass.fresh]

/-- Refutation of C4 as stated: the counters are 32 bits wide, so after
`2 ^ 32` calls with ground truth (all true positives) from a fresh run the four
counters add up to 0 and not to the number of calls. -/
theorem C4_counters_wrap :
    (recordAll (List.replicate (2 ^ 32) (0, Label.malicious, some Label.malicious))
        DetectionResultsClass.fresh).total = 0 ∧
    withGroundTruth (List.replicate (2 ^ 32) (0, Label.malicious, some Label.malicious))
      = 2 ^ 32 :=
  ⟨(recordAll_replicate_tp_total (2 ^ 32) (Nat.two_pow_pos 32)).trans
      (Nat.mod_self (2 ^ 32)),
   withGroundTruth_replicate (2 ^ 32) 0 Label.malicious Label.malicious⟩

/-- Claim C4, amended: a record call with ground truth increments exactly one
counter by one modulo `2 ^ 32` (malicious/malicious: tp, malicious/benign: fp,
benign/malicious: fn, benign/benign: tn) and leaves the other three unchanged; a
call without ground truth changes no counter; and after any sequence of calls
from a fresh run of which fewer than `2 ^ 32` had ground truth, tp + tn + fp + fn
is the number of calls that had ground truth. -/
theorem C4_confusion_matrix_accounting
    (calls : List (Nat × Label × Option Label)) (h : withGroundTruth calls < 2 ^ 32) :
    (∀ (nodeId : Nat) (c : DetectionResultsClass),
        record nodeId Label.malicious (some Label.malicious) c
          = { c with tp := (c.tp + 1) % 2 ^ 32 } ∧
        record nodeId Label.malicious (some Label.benign) c
          = { c with fp := (c.fp + 1) % 2 ^ 32 } ∧
        record nodeId Label.benign (some Label.malicious) c
          = { c with fn := (c.fn + 1) % 2 ^ 32 } ∧
        record nodeId Label.benign (some Label.benign) c
          = { c with tn := (c.tn + 1) % 2 ^ 32 }) ∧
    (∀ (nodeId : Nat) (predicted : Label) (c : DetectionResultsClass),
        record nodeId predicted none c = c) ∧
    (recordAll calls DetectionResultsClass.fresh).total = withGroundTruth calls := by
  refine ⟨fun nodeId c => ⟨rfl, rfl, rfl, rfl⟩, fun nodeId predicted c => rfl, ?_⟩
  have h0 : DetectionResultsClass.fresh.total = 0 := rfl
  rw [recordAll_total calls _ (by rw [h0]; simpa [UINT32_MOD] using h), h0]
  omega

/-- Witness of C4 on three calls, two of them with ground truth. -/
theorem C4_confusion_matrix_accounting_witness :
    withGroundTruth [(1, Label.malicious, some Label.malicious), (2, Label.benign, none),
        (3, Label.benign, some Label.malicious)] < 2 ^ 32 ∧
    (recordAll [(1, Label.malicious, some Label.malicious), (2, Label.benign, none),
        (3, Label.benign, some Label.malicious)] DetectionResultsClass.fresh).total
      = withGroundTruth [(1, Label.malicious, some Label.malicious), (2, Label.benign, none),
        (3, Label.benign, some Label.malicious)] :=
  ⟨by decide,
   (C4_confusion_matrix_accounting
      [(1, Label.malicious, some Label.malicious), (2, Label.benign, none),
        (3, Label.benign, some Label.malicious)] (by decide)).2.2⟩


theorem nextStage_rank_le (t : StageTriggers) (s : DefenseStratSelect) :
    stageRank s ≤ stageRank (nextStage t s) ∧ s.toNat ≤ (nextStage t s).toNat := by
  obtain ⟨a, v, l, p⟩ := t
  cases s <;> cases a <;> cases v <;> cases l <;> cases p <;> decide

theorem stageTrace_chain (s : DefenseStratSelect) (ts : List StageTriggers) :
    List.Chain' (fun a b => stageRank a ≤ stageRank b ∧ a.toNat ≤ b.toNat)
      (stageTrace s ts) := by
  induction ts generalizing s with
  | nil => simp [stageTrace]
  | cons t ts ih =>
    have hrest := ih (nextStage t s)
    cases ts with
    | nil =>
      simp only [stageTrace, List.chain'_cons, List.chain'_singleton, and_true]
      exact nextStage_rank_le t s
    | cons t2 ts =>
      simp only [stageTrace, List.chain'_cons] at hrest ⊢
      exact ⟨nextStage_rank_le t s, hrest⟩

theorem stageTrace_from_start (s : DefenseStratSelect) (ts : List StageTriggers) :
    ∀ later ∈ stageTrace s ts, stageRank s ≤ stageRank later ∧ s.toNat ≤ later.toNat := by
  induction ts generalizing s with
  | nil =>
    intro later hl
    simp only [stageTrace, List.mem_singleton] at hl
    subst hl
    exact ⟨le_refl _, le_refl _⟩
  | cons t ts ih =>
    intro later hl
    simp only [stageTrace, List.mem_cons] at hl
    rcases hl with hl | hl
    · subst hl
      exact ⟨le_refl _, le_refl _⟩
    · have h1 := nextStage_rank_le t s
      have h2 := ih (nextStage t s) later hl
      exact ⟨le_trans h1.1 h2.1, le_trans h1.2 h2.2⟩

/-- Claim C6: the defense stage moves only forward through NO_OPERATION, then
MONITOR_ALWAYS or MONITOR_WHEN_VELOCITY, then TRAINING, then INFERENCE: every
transition goes from a stage to one that is not earlier in that order and the
numeric value of DefenseStratSelect never decreases; so it is for every two
consecutive stages of every run and for every stage a run reaches from its
start stage; and the run NO_OPERATION, MONITOR_ALWAYS, TRAINING, INFERENCE
occurs. -/
theorem C6_stage_never_moves_back :
    (∀ (t : StageTriggers) (s : DefenseStratSelect),
        stageRank s ≤ stageRank (nextStage t s) ∧ s.toNat ≤ (nextStage t s).toNat) ∧
    (∀ (s : DefenseStratSelect) (ts : List StageTriggers),
        List.Chain' (fun a b => stageRank a ≤ stageRank b ∧ a.toNat ≤ b.toNat)
          (stageTrace s ts)) ∧
    (∀ (s : DefenseStratSelect) (ts : List StageTriggers),
        ∀ later ∈ stageTrace s ts, stageRank s ≤ stageRank later ∧ s.toNat ≤ later.toNat) ∧
    stageTrace DefenseStratSelect.NO_D_OPERATION
        [{ topologyActive := true, velocityGated := false, enoughLabels := false,
            policyStable := false },
          { topologyActive := true, velocityGated := false, enoughLabels := true,
            policyStable := false },
          { topologyActive := true, velocityGated := false, enoughLabels := true,
            policyStable := true }]
      = [DefenseStratSelect.NO_D_OPERATION, DefenseStratSelect.MONITOR_ALWAYS,
          DefenseStratSelect.TRAINING, DefenseStratSelect.INFERENCE] := by
  exact ⟨nextStage_rank_le, stageTrace_chain, stageTrace_from_start, by decide⟩

/-- Claim C7: under the configuration the experiment installs (PercentDrop = 1.0
and strategy value 1) the selected attack strategy is PACKET_DROP_PERC and
decide returns drop for every packet, whatever the draw of the random source
below 1; under NO_OPERATION (strategy value 0) decide returns forward for every
packet. -/
theorem C7_installed_strategy_drops_all (draw : ℚ) (hdraw : draw < 1) :
    Install_RoutingProtocol_attributes.PercentDrop = 1 ∧
    AttackStratSelect.fromValue Install_RoutingProtocol_attributes.mStrat
      = some AttackStratSelect.PACKET_DROP_PERC ∧
    (∀ (cfg : AttackConfig) (now : ℚ) (packet : PacketContext) (holdingNode : Nat)
        (strategy : AttackStratSelect),
        cfg.percentDrop = Install_RoutingProtocol_attributes.PercentDrop →
        AttackStratSelect.fromValue Install_RoutingProtocol_attributes.mStrat = some strategy →
        AttackStrategyEngine.decide cfg now draw packet holdingNode strategy
          = Decision.drop) ∧
    AttackStratSelect.fromValue 0 = some AttackStratSelect.NO_A_OPERATION ∧
    (∀ (cfg : AttackConfig) (now : ℚ) (packet : PacketContext) (holdingNode : Nat)
        (strategy : AttackStratSelect),
        AttackStratSelect.fromValue 0 = some strategy →
        AttackStrategyEngine.decide cfg now draw packet holdingNode strategy
          = Decision.forward) := by
  refine ⟨rfl, rfl, ?_, rfl, ?_⟩
  · intro cfg now packet holdingNode strategy hp hs
    have hstrat : strategy = AttackStratSelect.PACKET_DROP_PERC := by
      have h1 : AttackStratSelect.fromValue Install_RoutingProtocol_attributes.mStrat
          = some AttackStratSelect.PACKET_DROP_PERC := rfl
      rw [h1] at hs
      exact (Option.some.inj hs).symm
    have hp1 : cfg.percentDrop = 1 := hp
    subst hstrat
    simp only [AttackStrategyEngine.decide, hp1, hdraw, if_true]
  · intro cfg now packet holdingNode strategy hs
    have hstrat : strategy = AttackStratSelect.NO_A_OPERATION := by
      have h1 : AttackStratSelect.fromValue 0 = some AttackStratSelect.NO_A_OPERATION := rfl
      rw [h1] at hs
      exact (Option.some.inj hs).symm
    subst hstrat
    rfl

/-- Witness of C7 at the draw 1/2 and a packet from node 3 to node 4. -/
theorem C7_installed_strategy_drops_all_witness :
    ((1 : ℚ) / 2 < 1) ∧
    AttackStrategyEngine.decide
        { percentDrop := 1, flowSource := 0, flowDestination := 0, neighbours := [],
          windows := [], selector := fun _ => false }
        100 (1 / 2) { id := 5, source := 3, destination := 4, ttl := 64 } 2
        AttackStratSelect.PACKET_DROP_PERC = Decision.drop :=
  ⟨by norm_num,
   (C7_installed_strategy_drops_all (1 / 2) (by norm_num)).2.2.1
      { percentDrop := 1, flowSource := 0, flowDestination := 0, neighbours := [],
        windows := [], selector := fun _ => false }
      100 { id := 5, source := 3, destination := 4, ttl := 64 } 2
      AttackStratSelect.PACKET_DROP_PERC rfl rfl⟩


theorem CommandSetup_protocol (argv : CommandLineValues) (e : RoutingExperiment)
    (name : String) (hname : argv.protocol = some name) :
    (name = "AODV" →
      CommandSetup argv e = Outcome.ok
        { e with
          m_CSVfileName := argv.CSVfileName.getD e.m_CSVfileName
          m_traceMobility := argv.traceMobility.getD e.m_traceMobility
          m_protocolName := "AODV"
          m_flowMonitor := argv.flowMonitor.getD e.m_flowMonitor }) ∧
    (name ≠ "AODV" → CommandSetup argv e = Outcome.fatal ("No such protocol:" ++ name)) := by
  constructor
  · intro h
    subst h
    simp [CommandSetup, allowedProtocols, hname]
  · intro h
    have h2 : ¬ ("AODV" = name) := fun hc => h hc.symm
    simp [CommandSetup, allowedProtocols, hname, h2]

theorem Run_install_iff (e : RoutingExperiment) :
    (Run e).1.any RunStep.isInstall = true ↔ e.m_protocolName = "AODV" := by
  by_cases h : e.m_protocolName = "AODV"
  · simp [Run, h, RunStep.isInstall]
  · simp [Run, h, RunStep.isInstall]

/-- Claim C8: for every protocol name given on the command line, CommandSetup
ends in a fatal error if and only if the name is not exactly "AODV" (and then
main never enters Run), and Run reaches the routing-protocol installation only
when the protocol name is "AODV", ending in a fatal error otherwise. -/
theorem C8_protocol_name_checked (argv : CommandLineValues) (name : String)
    (hname : argv.protocol = some name) :
    (∀ e : RoutingExperiment,
        (∃ msg, CommandSetup argv e = Outcome.fatal msg) ↔ name ≠ "AODV") ∧
    (∀ e e1 : RoutingExperiment,
        CommandSetup argv e = Outcome.ok e1 → e1.m_protocolName = "AODV") ∧
    (name ≠ "AODV" → main argv = ([], some ("No such protocol:" ++ name))) ∧
    (∀ e : RoutingExperiment,
        ((Run e).1.any RunStep.isInstall = true ↔ e.m_protocolName = "AODV") ∧
        (e.m_protocolName ≠ "AODV" →
          (Run e).2 = some ("No such protocol:" ++ e.m_protocolName))) ∧
    ((main argv).1.any RunStep.isInstall = true ↔ name = "AODV") := by
  have hmain : name ≠ "AODV" → main argv = ([], some ("No such protocol:" ++ name)) := by
    intro h
    simp only [main, (CommandSetup_protocol argv {} name hname).2 h]
  refine ⟨?_, ?_, hmain, ?_, ?_⟩
  · intro e
    constructor
    · rintro ⟨msg, hmsg⟩ h
      rw [(CommandSetup_protocol argv e name hname).1 h] at hmsg
      exact Outcome.noConfusion hmsg
    · intro h
      exact ⟨_, (CommandSetup_protocol argv e name hname).2 h⟩
  · intro e e1 hok
    by_cases h : name = "AODV"
    · rw [(CommandSetup_protocol argv e name hname).1 h] at hok
      injection hok with hok
      rw [← hok]
    · rw [(CommandSetup_protocol argv e name hname).2 h] at hok
      exact Outcome.noConfusion hok
  · intro e
    refine ⟨Run_install_iff e, ?_⟩
    intro h
    simp [Run, h]
  · by_cases h : name = "AODV"
    · simp only [main, (CommandSetup_protocol argv {} name hname).1 h, h, iff_true]
      rw [Run_install_iff]
    · rw [hmain h]
      simp [h]

/-- Witness of C8 at the protocol name "OLSR". -/
theorem C8_protocol_name_checked_witness :
    ({ protocol := some "OLSR" } : CommandLineValues).protocol = some "OLSR" ∧
    main { protocol := some "OLSR" } = ([], some "No such protocol:OLSR") :=
  ⟨rfl, (C8_protocol_name_checked { protocol := some "OLSR" } "OLSR" rfl).2.2.1 (by decide)⟩


theorem assignStreamsLoop_append (a : Bool) (front rest : List Node) (cur : Int)
    (given : List Int) :
    assignStreamsLoop a (front ++ rest) cur given =
      match assignStreamsLoop a front cur given with
      | (g, .inl c) => assignStreamsLoop a rest c g
      | (g, .inr o) => (g, .inr o) := by
  induction front generalizing cur given with
  | nil => simp [assignStreamsLoop]
  | cons node front ih =>
    obtain ⟨ipv4⟩ := node
    cases ipv4 with
    | none => cases a <;> simp [assignStreamsLoop]
    | some ip =>
      obtain ⟨proto⟩ := ip
      cases proto with
      | none =>
        cases a
        · simpa [assignStreamsLoop] using ih cur given
        · simp [assignStreamsLoop]
      | some p =>
        cases hg : greyattackaodvOf p with
        | none => simpa [assignStreamsLoop, hg] using ih cur given
        | some streams =>
          by_cases hr : inInt64 (cur + streams cur)
          · simpa [assignStreamsLoop, hg, hr] using ih (cur + streams cur) (given ++ [cur])
          · simp [assignStreamsLoop, hg, hr]

/-- Refutation of C9 as stated: with a node without routing protocol in front
of a greyattackaodv node, the call ends at the failed assertion; the second node
is handed no stream and no count is returned. -/
theorem C9_missing_routing_aborts :
    AssignStreams true
        [{ ipv4 := some { routingProtocol := none } },
          { ipv4 := some { routingProtocol := some (.greyattackaodv fun _ => 1) } }] 0
      = ([], StreamsOutcome.assertFailed "Ipv4 routing not installed on node") := by
  rfl

/-- Claim C9, amended: when a node of the container has no routing protocol
installed, AssignStreams with assertions compiled in reports "Ipv4 routing not
installed on node" and ends the program there: the nodes before it have been
processed, the nodes after it are not, and no count is returned.  Only with
assertions compiled out is the node skipped, without a report, and the
remaining nodes processed as if it were not in the container. -/
theorem C9_missing_routing_engine (front rest : List Node) (stream cur : Int)
    (given : List Int)
    (hfront : assignStreamsLoop true front stream [] = (given, .inl cur)) :
    AssignStreams true (front ++ { ipv4 := some { routingProtocol := none } } :: rest) stream
      = (given, StreamsOutcome.assertFailed "Ipv4 routing not installed on node") ∧
    AssignStreams true (front ++ { ipv4 := none } :: rest) stream
      = (given, StreamsOutcome.assertFailed "Ipv4 not installed on node") ∧
    AssignStreams false (front ++ { ipv4 := some { routingProtocol := none } } :: rest) stream
      = AssignStreams false (front ++ rest) stream := by
  refine ⟨?_, ?_, ?_⟩
  · simp [AssignStreams, assignStreamsLoop_append, hfront, assignStreamsLoop]
  · simp [AssignStreams, assignStreamsLoop_append, hfront, assignStreamsLoop]
  · unfold AssignStreams
    rw [assignStreamsLoop_append, assignStreamsLoop_append false front rest]
    rcases assignStreamsLoop false front stream [] with ⟨g, c | o⟩
    · simp [assignStreamsLoop]
    · rfl

/-- Witness of C9: a greyattackaodv node, a node without routing protocol, a
greyattackaodv node. -/
theorem C9_missing_routing_engine_witness :
    assignStreamsLoop true
        [{ ipv4 := some { routingProtocol := some (.greyattackaodv fun _ => 1) } }] 5 []
      = ([5], .inl 6) ∧
    AssignStreams true
        ([{ ipv4 := some { routingProtocol := some (.greyattackaodv fun _ => 1) } }] ++
          { ipv4 := some { routingProtocol := none } } ::
            [{ ipv4 := some { routingProtocol := some (.greyattackaodv fun _ => 1) } }]) 5
      = ([5], StreamsOutcome.assertFailed "Ipv4 routing not installed on node") :=
  ⟨rfl,
   (C9_missing_routing_engine
      [{ ipv4 := some { routingProtocol := some (.greyattackaodv fun _ => 1) } }]
      [{ ipv4 := some { routingProtocol := some (.greyattackaodv fun _ => 1) } }]
      5 6 [5] rfl).1⟩


theorem ReceivePacket_counters (sizes : List Nat) (e : RoutingExperiment)
    (hb : e.bytesTotal < UINT32_MOD) (hp : e.packetsReceived < UINT32_MOD) :
    ReceivePacket sizes e =
      { e with
        bytesTotal := (e.bytesTotal + sizes.sum) % UINT32_MOD
        packetsReceived := (e.packetsReceived + sizes.length) % UINT32_MOD } := by
  induction sizes generalizing e with
  | nil => simp [ReceivePacket, Nat.mod_eq_of_lt hb, Nat.mod_eq_of_lt hp]
  | cons size sizes ih =>
    have hM : 0 < UINT32_MOD := by decide
    have hfold : ReceivePacket (size :: sizes) e =
        ReceivePacket sizes
          { e with
            bytesTotal := (e.bytesTotal + size) % UINT32_MOD
            packetsReceived := (e.packetsReceived + 1) % UINT32_MOD } := rfl
    rw [hfold, ih _ (Nat.mod_lt _ hM) (Nat.mod_lt _ hM)]
    simp only [List.sum_cons, List.length_cons]
    congr 1
    · rw [Nat.add_mod, Nat.mod_mod, ← Nat.add_mod, Nat.add_assoc]
    · rw [Nat.add_mod, Nat.mod_mod, ← Nat.add_mod, Nat.add_assoc, Nat.add_comm 1]

/-- Claim C11: for every experiment state, after CheckThroughput both
bytesTotal and packetsReceived are 0 and every other field of the experiment
(port, sink count, protocol name, tx power, CSV file name and the two flags) is
unchanged, so the next row reflects only the packets received since this one. -/
theorem C11_check_throughput_resets (w : World) (now : ℚ) :
    (CheckThroughput now w).1.exp.bytesTotal = 0 ∧
    (CheckThroughput now w).1.exp.packetsReceived = 0 ∧
    (CheckThroughput now w).1.exp.port = w.exp.port ∧
    (CheckThroughput now w).1.exp.m_nSinks = w.exp.m_nSinks ∧
    (CheckThroughput now w).1.exp.m_protocolName = w.exp.m_protocolName ∧
    (CheckThroughput now w).1.exp.m_txp = w.exp.m_txp ∧
    (CheckThroughput now w).1.exp.m_CSVfileName = w.exp.m_CSVfileName ∧
    (CheckThroughput now w).1.exp.m_traceMobility = w.exp.m_traceMobility ∧
    (CheckThroughput now w).1.exp.m_flowMonitor = w.exp.m_flowMonitor ∧
    (CheckThroughput now w).1.exp = { w.exp with bytesTotal := 0, packetsReceived := 0 } ∧
    (CheckThroughput now w).2 = now + 1 ∧
    (∀ (sizes : List Nat),
        (CheckThroughput (now + 1)
            { exp := ReceivePacket sizes (CheckThroughput now w).1.exp
              files := (CheckThroughput now w).1.files
              writable := (CheckThroughput now w).1.writable }).1.files w.exp.m_CSVfileName
          = (if w.writable w.exp.m_CSVfileName then
              w.files w.exp.m_CSVfileName ++
                [csvRow now w.exp,
                  [CsvField.real (sixDigits (now + 1)),
                    CsvField.real (sixDigits (((sizes.sum % 2 ^ 32 : Nat) * 8 : ℚ) / 1000)),
                    CsvField.uint (sizes.length % 2 ^ 32), CsvField.int w.exp.m_nSinks,
                    CsvField.text w.exp.m_protocolName,
                    CsvField.real (sixDigits w.exp.m_txp)]]
            else w.files w.exp.m_CSVfileName)) := by
  refine ⟨rfl, rfl, rfl, rfl, rfl, rfl, rfl, rfl, rfl, rfl, rfl, ?_⟩
  intro sizes
  have hM : 0 < UINT32_MOD := by decide
  rw [ReceivePacket_counters sizes _ hM hM]
  by_cases hw : w.writable w.exp.m_CSVfileName = true
  · simp [CheckThroughput, csvRow, UINT32_MOD, hw]
  · simp [CheckThroughput, hw]


theorem ReceivePacketLoop_eq (sizes : List Nat) (e : RoutingExperiment) :
    ReceivePacketLoop sizes e = (ReceivePacket sizes e, []) := by
  induction sizes generalizing e with
  | nil => rfl
  | cons size sizes ih =>
    simp only [ReceivePacketLoop, ih]
    rfl

/-- Claim C12: for every finite sequence of packets pending on the socket,
ReceivePacket increases packetsReceived by the number of packets and bytesTotal
by the sum of their sizes, both as 32-bit unsigned counters (modulo `2 ^ 32`),
leaves the other fields as they are, and its loop ends with no packet left on
the socket. -/
theorem C12_receive_packet_counts (sizes : List Nat) (e : RoutingExperiment)
    (hb : e.bytesTotal < 2 ^ 32) (hp : e.packetsReceived < 2 ^ 32) :
    (ReceivePacket sizes e).packetsReceived = (e.packetsReceived + sizes.length) % 2 ^ 32 ∧
    (ReceivePacket sizes e).bytesTotal = (e.bytesTotal + sizes.sum) % 2 ^ 32 ∧
    ReceivePacket sizes e =
      { e with
        bytesTotal := (e.bytesTotal + sizes.sum) % 2 ^ 32
        packetsReceived := (e.packetsReceived + sizes.length) % 2 ^ 32 } ∧
    ReceivePacketLoop sizes e = (ReceivePacket sizes e, []) := by
  have h := ReceivePacket_counters sizes e hb hp
  refine ⟨?_, ?_, h, ReceivePacketLoop_eq sizes e⟩
  · rw [h]; rfl
  · rw [h]; rfl

/-- Witness of C12: three packets of 800, 64 and 0 bytes on a default
experiment. -/
theorem C12_receive_packet_counts_witness :
    (({} : RoutingExperiment).bytesTotal < 2 ^ 32 ∧
      ({} : RoutingExperiment).packetsReceived < 2 ^ 32) ∧
    (ReceivePacket [800, 64, 0] {}).packetsReceived = (0 + 3) % 2 ^ 32 ∧
    (ReceivePacket [800, 64, 0] {}).bytesTotal = (0 + 864) % 2 ^ 32 :=
  ⟨⟨by decide, by decide⟩,
   (C12_receive_packet_counts [800, 64, 0] {} (by decide) (by decide)).1,
   (C12_receive_packet_counts [800, 64, 0] {} (by decide) (by decide)).2.1⟩


/-- Claim C13, evaluated on the code: with default settings the experiment
creates 20 nodes (not 50) and 5 source/sink data pairs (not 10), and starts
application data at a time between 100 and 101 simulated seconds (not 50 and
51) of a 200-second run. -/
theorem C13_default_run :
    main {} =
      ([RunStep.writeHeader "manet-routing.output.csv" csvHeader,
        RunStep.createNodes 20,
        RunStep.installWifiAndMobility,
        RunStep.installRoutingProtocol { PercentDrop := 1, mStrat := 1 },
        RunStep.assignAddresses,
        RunStep.sinkAndSource 0 5 100 101 200,
        RunStep.sinkAndSource 1 6 100 101 200,
        RunStep.sinkAndSource 2 7 100 101 200,
        RunStep.sinkAndSource 3 8 100 101 200,
        RunStep.sinkAndSource 4 9 100 101 200,
        RunStep.checkThroughput,
        RunStep.simulate 200], none) ∧
    ({} : RoutingExperiment).m_nSinks = 5 ∧
    (sinkLoop ({} : RoutingExperiment).m_nSinks 200).length = 5 := by
  refine ⟨?_, rfl, rfl⟩
  simp [main, CommandSetup, allowedProtocols, Run, sinkLoop,
    Install_RoutingProtocol_attributes, List.range_succ]


theorem streamStarts_length (s : Int) (fs : List (Int → Int)) :
    (streamStarts s fs).length = fs.length := by
  induction fs generalizing s with
  | nil => rfl
  | cons f fs ih => simp [streamStarts, ih]

theorem streamCounts_length (s : Int) (fs : List (Int → Int)) :
    (streamCounts s fs).length = fs.length := by
  induction fs generalizing s with
  | nil => rfl
  | cons f fs ih => simp [streamCounts, ih]

theorem streamStarts_getElem? (s : Int) (fs : List (Int → Int)) (k : Nat)
    (hk : k < fs.length) :
    (streamStarts s fs)[k]? = some (s + ((streamCounts s fs).take k).sum) := by
  induction fs generalizing s k with
  | nil => simp at hk
  | cons f fs ih =>
    cases k with
    | zero => simp [streamStarts]
    | succ k =>
      simp only [List.length_cons, Nat.add_lt_add_iff_right] at hk
      simp only [streamStarts, streamCounts, List.getElem?_cons_succ, List.take_succ_cons,
        List.sum_cons, ih (s + f s) k hk]
      congr 1
      omega

theorem streamCounts_getElem? (s : Int) (fs : List (Int → Int)) (k : Nat) :
    (streamCounts s fs)[k]? =
      fs[k]?.map fun f => f (s + ((streamCounts s fs).take k).sum) := by
  induction fs generalizing s k with
  | nil => simp [streamCounts]
  | cons f fs ih =>
    cases k with
    | zero => simp [streamCounts]
    | succ k =>
      simp only [streamCounts, List.getElem?_cons_succ, List.take_succ_cons, List.sum_cons,
        ih (s + f s) k]
      congr 1
      funext g
      congr 1
      omega

theorem streamStarts_ge (s : Int) (fs : List (Int → Int))
    (hnn : ∀ n ∈ streamCounts s fs, 0 ≤ n) : ∀ y ∈ streamStarts s fs, s ≤ y := by
  induction fs generalizing s with
  | nil => intro y hy; simp [streamStarts] at hy
  | cons f fs ih =>
    intro y hy
    simp only [streamCounts, List.mem_cons, forall_eq_or_imp] at hnn
    simp only [streamStarts, List.mem_cons] at hy
    rcases hy with hy | hy
    · omega
    · have := ih (s + f s) hnn.2 y hy
      omega

theorem streamStarts_disjoint (s : Int) (fs : List (Int → Int))
    (hnn : ∀ n ∈ streamCounts s fs, 0 ≤ n) (i j : Nat) (x n y : Int) (hij : i < j)
    (hx : (streamStarts s fs)[i]? = some x) (hn : (streamCounts s fs)[i]? = some n)
    (hy : (streamStarts s fs)[j]? = some y) : x + n ≤ y := by
  induction fs generalizing s i j with
  | nil => simp [streamStarts] at hx
  | cons f fs ih =>
    have hnn2 := hnn
    simp only [streamCounts, List.mem_cons, forall_eq_or_imp] at hnn2
    cases j with
    | zero => omega
    | succ j =>
      simp only [streamStarts, List.getElem?_cons_succ] at hy
      cases i with
      | zero =>
        simp only [streamStarts, streamCounts, List.getElem?_cons_zero, Option.some.injEq]
          at hx hn
        have := streamStarts_ge (s + f s) fs hnn2.2 y (List.getElem?_mem hy)
        omega
      | succ i =>
        simp only [streamStarts, streamCounts, List.getElem?_cons_succ] at hx hn
        exact ih (s + f s) hnn2.2 i j (by omega) hx hn hy

theorem streamsInRange_of_sums (s : Int) (fs : List (Int → Int))
    (h : ∀ k ≤ fs.length, inInt64 (s + ((streamCounts s fs).take k).sum)) :
    streamsInRange s fs := by
  induction fs generalizing s with
  | nil => trivial
  | cons f fs ih =>
    refine ⟨?_, ih (s + f s) ?_⟩
    · have h1 := h 1 (by simp)
      simpa [streamCounts] using h1
    · intro k hk
      have h2 := h (k + 1) (by simpa using hk)
      simpa [streamCounts, List.take_succ_cons, add_assoc] using h2

theorem assignStreamsLoop_installed (a : Bool) (c : List Node) (cur : Int) (given : List Int)
    (hinst : ∀ node ∈ c, node.installed = true)
    (hrange : streamsInRange cur (c.filterMap contributor)) :
    assignStreamsLoop a c cur given =
      (given ++ streamStarts cur (c.filterMap contributor),
        .inl (cur + (streamCounts cur (c.filterMap contributor)).sum)) := by
  induction c generalizing cur given with
  | nil => simp [assignStreamsLoop, streamStarts, streamCounts]
  | cons node c ih =>
    have hnode := hinst node (List.mem_cons_self _ _)
    have hrest : ∀ n ∈ c, n.installed = true := fun n hn => hinst n (List.mem_cons_of_mem _ hn)
    obtain ⟨ipv4⟩ := node
    cases ipv4 with
    | none => simp [Node.installed] at hnode
    | some ip =>
      obtain ⟨proto⟩ := ip
      cases proto with
      | none => simp [Node.installed] at hnode
      | some p =>
        cases hg : greyattackaodvOf p with
        | none =>
          have hc : contributor { ipv4 := some { routingProtocol := some p } } = none := by
            simp [contributor, hg]
          rw [List.filterMap_cons_none hc] at hrange ⊢
          simp only [assignStreamsLoop, hg]
          exact ih cur given hrest hrange
        | some streams =>
          have hc : contributor { ipv4 := some { routingProtocol := some p } }
              = some streams := by
            simp [contributor, hg]
          rw [List.filterMap_cons_some hc] at hrange ⊢
          obtain ⟨hr1, hr2⟩ := hrange
          simp only [assignStreamsLoop, hg, hr1, if_true]
          rw [ih (cur + streams cur) (given ++ [cur]) hrest hr2]
          simp [streamStarts, streamCounts, add_assoc]


theorem firstGreyattackaodv_append (front rest : List Ipv4RoutingProtocol) (f : Int → Int)
    (hfront : ∀ p ∈ front, p.isGreyattackaodv = false) :
    firstGreyattackaodv (front ++ .greyattackaodv f :: rest) = some f := by
  induction front with
  | nil => rfl
  | cons p front ih =>
    have hp := hfront p (List.mem_cons_self _ _)
    have hrest := ih fun q hq => hfront q (List.mem_cons_of_mem _ hq)
    cases p with
    | greyattackaodv g => simp [Ipv4RoutingProtocol.isGreyattackaodv] at hp
    | listRouting ps => simpa [firstGreyattackaodv] using hrest
    | other => simpa [firstGreyattackaodv] using hrest

/-- Refutation of C14 as stated: for a container whose only node has no Ipv4
object the call does not return the empty sum 0; it ends at the failed
assertion, or at a null dereference when assertions are compiled out. -/
theorem C14_node_without_ipv4 :
    AssignStreams true [{ ipv4 := none }] 0
      = ([], StreamsOutcome.assertFailed "Ipv4 not installed on node") ∧
    AssignStreams false [{ ipv4 := none }] 0 = ([], StreamsOutcome.nullDereference) ∧
    [{ ipv4 := none }].filterMap contributor = [] := by
  refine ⟨rfl, rfl, rfl⟩

/-- Claim C14, amended: for every node container whose nodes all have an Ipv4
object with a routing protocol, and every start index `stream`, as long as the
running index and the total stay within `int64_t`, AssignStreams gives the k-th
contributing protocol instance the start index stream + (sum of the counts
returned by the instances before it) and returns the sum of all counts, where a
node contributes its greyattackaodv instance if that is its routing protocol,
else the first greyattackaodv instance found in its list routing (later ones in
the list are ignored), else nothing; so with non-negative counts the assigned
stream ranges are consecutive and do not overlap. -/
theorem C14_assign_streams (a : Bool) (c : List Node) (stream : Int)
    (hinst : ∀ node ∈ c, node.installed = true)
    (hrange : ∀ k ≤ (c.filterMap contributor).length,
      inInt64 (stream + ((streamCounts stream (c.filterMap contributor)).take k).sum))
    (hsum : inInt64 (streamCounts stream (c.filterMap contributor)).sum) :
    AssignStreams a c stream
      = (streamStarts stream (c.filterMap contributor),
          StreamsOutcome.returned (streamCounts stream (c.filterMap contributor)).sum) ∧
    (streamStarts stream (c.filterMap contributor)).length = (c.filterMap contributor).length ∧
    (streamCounts stream (c.filterMap contributor)).length = (c.filterMap contributor).length ∧
    (∀ k < (c.filterMap contributor).length,
        (streamStarts stream (c.filterMap contributor))[k]?
          = some (stream + ((streamCounts stream (c.filterMap contributor)).take k).sum)) ∧
    (∀ k : Nat,
        (streamCounts stream (c.filterMap contributor))[k]?
          = (c.filterMap contributor)[k]?.map fun streams =>
              streams (stream + ((streamCounts stream (c.filterMap contributor)).take k).sum)) ∧
    (∀ streams : Int → Int,
        contributor { ipv4 := some { routingProtocol := some (.greyattackaodv streams) } }
          = some streams) ∧
    (∀ protocols : List Ipv4RoutingProtocol,
        contributor { ipv4 := some { routingProtocol := some (.listRouting protocols) } }
          = firstGreyattackaodv protocols) ∧
    (∀ (front rest : List Ipv4RoutingProtocol) (streams : Int → Int),
        (∀ p ∈ front, p.isGreyattackaodv = false) →
        firstGreyattackaodv (front ++ .greyattackaodv streams :: rest) = some streams) ∧
    (∀ protocols : List Ipv4RoutingProtocol,
        (∀ p ∈ protocols, p.isGreyattackaodv = false) →
        firstGreyattackaodv protocols = none) ∧
    contributor { ipv4 := some { routingProtocol := some .other } } = none ∧
    ((∀ n ∈ streamCounts stream (c.filterMap contributor), 0 ≤ n) →
      ∀ (i j : Nat) (x n y : Int), i < j →
        (streamStarts stream (c.filterMap contributor))[i]? = some x →
        (streamCounts stream (c.filterMap contributor))[i]? = some n →
        (streamStarts stream (c.filterMap contributor))[j]? = some y →
        x + n ≤ y) := by
  refine ⟨?_, streamStarts_length _ _, streamCounts_length _ _,
    fun k hk => streamStarts_getElem? _ _ k hk, fun k => streamCounts_getElem? _ _ k,
    fun _ => rfl, fun _ => rfl, firstGreyattackaodv_append, ?_, rfl,
    fun hnn i j x n y hij hx hn hy => streamStarts_disjoint _ _ hnn i j x n y hij hx hn hy⟩
  · have hloop := assignStreamsLoop_installed a c stream [] hinst
      (streamsInRange_of_sums _ _ hrange)
    simp only [AssignStreams, hloop, List.nil_append, add_sub_cancel_left, hsum, if_true]
  · intro protocols hp
    induction protocols with
    | nil => rfl
    | cons p ps ih =>
      have h1 := hp p (List.mem_cons_self _ _)
      have h2 := ih fun q hq => hp q (List.mem_cons_of_mem _ hq)
      cases p with
      | greyattackaodv g => simp [Ipv4RoutingProtocol.isGreyattackaodv] at h1
      | listRouting qs => simpa [firstGreyattackaodv] using h2
      | other => simpa [firstGreyattackaodv] using h2


/-- Witness of C14 on the sample container from the start index 10: the three
contributing instances start at 10, 11 and 13, and 6 streams are returned. -/
theorem C14_assign_streams_witness :
    (∀ node ∈ sampleContainer, node.installed = true) ∧
    AssignStreams true sampleContainer 10 = ([10, 11, 13], StreamsOutcome.returned 6) :=
  ⟨by simp [sampleContainer, Node.installed],
   (C14_assign_streams true sampleContainer 10
      (by simp [sampleContainer, Node.installed])
      (by
        intro k hk
        have hk3 : k ≤ 3 := hk
        interval_cases k <;>
          simp [sampleContainer, contributor, greyattackaodvOf, firstGreyattackaodv,
            streamCounts, inInt64])
      (by
        simp [sampleContainer, contributor, greyattackaodvOf, firstGreyattackaodv,
          streamCounts, inInt64])).1.trans rfl⟩

theorem CommandSetup_nSinks (argv : CommandLineValues) (e0 e : RoutingExperiment)
    (h : CommandSetup argv e0 = Outcome.ok e) : e.m_nSinks = e0.m_nSinks := by
  unfold CommandSetup at h
  simp only at h
  split at h
  · exact Outcome.noConfusion h
  · injection h with h
    rw [← h]

theorem Run_mem_sinkAndSource (e : RoutingExperiment) (sink source : Int) (a b c : ℚ) :
    RunStep.sinkAndSource sink source a b c ∈ (Run e).1 ↔
      e.m_protocolName = "AODV" ∧
        ∃ i : Nat, i < e.m_nSinks.toNat ∧ sink = i ∧ source = i + e.m_nSinks ∧
          a = 100 ∧ b = 101 ∧ c = 200 := by
  by_cases hp : e.m_protocolName = "AODV"
  · simp [Run, hp, sinkLoop]
    constructor
    · rintro ⟨x, ⟨i, hi, rfl⟩, h1, h2, h3, h4, h5⟩
      exact ⟨i, hi, h1.symm, h2.symm, h3.symm, h4.symm, h5.symm⟩
    · rintro ⟨i, hi, h1, h2, h3, h4, h5⟩
      exact ⟨i, ⟨i, hi, rfl⟩, h1.symm, h2.symm, h3.symm, h4.symm, h5.symm⟩
  · simp [Run, hp]

theorem Run_mem_createNodes (e : RoutingExperiment) (n : Int) :
    RunStep.createNodes n ∈ (Run e).1 ↔ n = 20 := by
  by_cases hp : e.m_protocolName = "AODV"
  · simp [Run, hp, sinkLoop]
  · simp [Run, hp]


/-- Claim C15: in Run, for every i with 0 <= i < m_nSinks the sink node index i
and the source node index i + m_nSinks are both valid indices into the
container of the nWifis created nodes, and no node is used both as a sink and as
a source; 2 * m_nSinks <= nWifis holds for the values the program uses, which
are m_nSinks = 5 and nWifis = 20 for every command line. -/
theorem C15_sink_source_indices (argv : CommandLineValues) (sink source : Int) (a b c : ℚ)
    (hstep : RunStep.sinkAndSource sink source a b c ∈ (main argv).1) :
    RunStep.createNodes 20 ∈ (main argv).1 ∧
    (∀ nWifis : Int, RunStep.createNodes nWifis ∈ (main argv).1 →
        (0 ≤ sink ∧ sink < nWifis) ∧ (0 ≤ source ∧ source < nWifis)) ∧
    (0 ≤ sink ∧ sink < 5 ∧ source = sink + 5) ∧
    (∀ (sink2 source2 : Int) (a2 b2 c2 : ℚ),
        RunStep.sinkAndSource sink2 source2 a2 b2 c2 ∈ (main argv).1 → sink2 ≠ source) ∧
    (∀ e : RoutingExperiment, CommandSetup argv {} = Outcome.ok e →
        e.m_nSinks = 5 ∧ 2 * e.m_nSinks ≤ 20) ∧
    (∀ i : Nat, i < 5 →
        RunStep.sinkAndSource i (i + 5) 100 101 200 ∈ (main {}).1) := by
  have hsetup : ∀ e : RoutingExperiment, CommandSetup argv {} = Outcome.ok e →
      e.m_nSinks = 5 := fun e he => CommandSetup_nSinks argv {} e he
  have hdefault : ∀ i : Nat, i < 5 →
      RunStep.sinkAndSource i (i + 5) 100 101 200 ∈ (main {}).1 := by
    intro i hi
    have hmain : main {} = Run {} := rfl
    rw [hmain, Run_mem_sinkAndSource]
    exact ⟨rfl, i, hi, rfl, rfl, rfl, rfl, rfl⟩
  cases hcs : CommandSetup argv {} with
  | fatal msg =>
    simp [main, hcs] at hstep
  | ok e =>
    have hn := hsetup e hcs
    have hmain : main argv = Run e := by simp [main, hcs]
    rw [hmain] at hstep ⊢
    rw [Run_mem_sinkAndSource, hn] at hstep
    obtain ⟨_, i, hi, h1, h2, _, _, _⟩ := hstep
    have hi5 : i < 5 := hi
    refine ⟨(Run_mem_createNodes e 20).2 rfl, ?_, ⟨by omega, by omega, by omega⟩, ?_, ?_,
      hdefault⟩
    · intro nWifis hnodes
      rw [Run_mem_createNodes] at hnodes
      omega
    · intro sink2 source2 a2 b2 c2 h2step
      rw [Run_mem_sinkAndSource, hn] at h2step
      obtain ⟨_, j, hj, hj1, _, _, _, _⟩ := h2step
      have hj5 : j < 5 := hj
      omega
    · intro e2 he2
      injection he2 with he2
      rw [← he2, hn]
      exact ⟨rfl, by decide⟩

/-- Witness of C15: the last pair of the default run, sink node 4 and source
node 9. -/
theorem C15_sink_source_indices_witness :
    RunStep.sinkAndSource 4 9 100 101 200 ∈ (main {}).1 ∧
    RunStep.createNodes 20 ∈ (main {}).1 ∧
    ((0 : Int) ≤ 4 ∧ (4 : Int) < 5 ∧ (9 : Int) = 4 + 5) :=
  ⟨(Run_mem_sinkAndSource {} 4 9 100 101 200).2 ⟨rfl, 4, by decide, rfl, rfl, rfl, rfl, rfl⟩,
   (C15_sink_source_indices {} 4 9 100 101 200
      ((Run_mem_sinkAndSource {} 4 9 100 101 200).2
        ⟨rfl, 4, by decide, rfl, rfl, rfl, rfl, rfl⟩)).1,
   (C15_sink_source_indices {} 4 9 100 101 200
      ((Run_mem_sinkAndSource {} 4 9 100 101 200).2
        ⟨rfl, 4, by decide, rfl, rfl, rfl, rfl, rfl⟩)).2.2.1⟩


end Ns3
